import Mathlib

/-!
Shallow embedding of `py_2048_rl/learning/learning.py` (the learning pipeline of
the 2048 reinforcement-learning project), together with theorems settling the
specification claims about it.

Python floats are modelled by `ℚ` (all constants involved are exact decimal
fractions and the spec reasons about exact real arithmetic).  A 4×4 board is a
`List (List ℤ)` (log2-encoded tile values); `.flatten()` is `List.flatten`.
NumPy's elementwise operations over equal-length arrays are modelled with
`List.zip`/`List.map`; the shape conformance that NumPy enforces dynamically
(inference output has one row per input row) appears as an explicit length
hypothesis where a theorem needs it.
-/

/- Module constants of learning.py. -/

def BATCH_SIZE : ℕ := 32

def STATE_NORMALIZE_FACTOR : ℚ := 1 / 15

def REWARD_NORMALIZE_FACTOR : ℚ := 1 / 50

def GAMMA : ℚ := 98 / 100

def GAMES_PER_SHUFFLE : ℕ := 10

def START_DECREASE_EPSILON_GAMES : ℕ := 200000

def DECREASE_EPSILON_GAMES : ℚ := 1000000

def MIN_EPSILON : ℚ := 1 / 10

/-- One observed transition, as produced by the game environment
(`state`, `action`, `reward`, `next_state`, `game_over`). -/
structure Experience where
  state : List (List ℤ)
  action : ℤ
  reward : ℚ
  next_state : List (List ℤ)
  game_over : Bool
deriving DecidableEq

instance : Inhabited Experience := ⟨⟨[], 0, 0, [], false⟩⟩

/-- `x.flatten() * STATE_NORMALIZE_FACTOR`: the state normalization applied in
`experiences_to_batches` (lines 83–85) and in `make_get_q_values` (line 115). -/
def flattenScale (s : List (List ℤ)) : List ℚ :=
  s.flatten.map fun v => (v : ℚ) * STATE_NORMALIZE_FACTOR

/-- `0 if experience.reward == 0 else REWARD_NORMALIZE_FACTOR` (line 87). -/
def normReward (r : ℚ) : ℚ :=
  if r = 0 then 0 else REWARD_NORMALIZE_FACTOR

/-- `predictions.max(axis=1)` applied to one row: the maximum entry of a
(nonempty) list; `0` on the empty list, which NumPy would reject. -/
def rowMax : List ℚ → ℚ
  | [] => 0
  | q :: qs => qs.foldl max q

/-- The type of `run_inference`: a batch of (normalized, flattened) states in,
a batch of Q-value rows out. -/
abbrev Inference := List (List ℚ) → List (List ℚ)

/-- Rows of `state_batch` (line 83). -/
def state_batch_of (es : List Experience) : List (List ℚ) :=
  es.map fun e => flattenScale e.state

/-- Rows of `next_state_batch` (lines 84–85). -/
def next_state_batch_of (es : List Experience) : List (List ℚ) :=
  es.map fun e => flattenScale e.next_state

/-- `targets` right after the initialization loop (line 87), before any
discounted term is added. -/
def targets_init (es : List Experience) : List ℚ :=
  es.map fun e => normReward e.reward

/-- `actions` (line 86). -/
def actions_of (es : List Experience) : List ℤ :=
  es.map fun e => e.action

/-- `game_over_batch` (line 88). -/
def game_over_batch_of (es : List Experience) : List Bool :=
  es.map fun e => e.game_over

/-- `max_qs = predictions.max(axis=1); max_qs[game_over_batch] = 0`
(lines 92–93): per-row maxima with terminal rows forced to zero. -/
def masked_max_qs (predictions : List (List ℚ)) (game_over_batch : List Bool) : List ℚ :=
  ((predictions.map rowMax).zip game_over_batch).map fun p => if p.2 then 0 else p.1

/-- `experiences_to_batches`, with the module constant `GAMMA` made an explicit
parameter so that the `GAMMA = 0` branch of line 90 can be stated.  Returns the
triple the source returns on line 96: `(state_batch, targets, actions)`. -/
def experiencesToBatchesG (gamma : ℚ) (es : List Experience)
    (run_inference : Inference) : List (List ℚ) × List ℚ × List ℤ :=
  let targets :=
    if 0 < gamma then
      ((targets_init es).zip
          (masked_max_qs (run_inference (next_state_batch_of es))
            (game_over_batch_of es))).map
        fun p => p.1 + gamma * p.2
    else targets_init es
  (state_batch_of es, targets, actions_of es)

/-- `experiences_to_batches` at the module's actual `GAMMA = 0.98`. -/
def experiences_to_batches (es : List Experience)
    (run_inference : Inference) : List (List ℚ) × List ℚ × List ℤ :=
  experiencesToBatchesG GAMMA es run_inference

/-- The `targets` component of the returned triple. -/
def targets_of (es : List Experience) (run_inference : Inference) : List ℚ :=
  (experiences_to_batches es run_inference).2.1

/-- The epsilon computation of `get_batches` (lines 48–53), as a function of
the games-played count `games = i * GAMES_PER_SHUFFLE`. -/
def epsilonOf (games : ℕ) : ℚ :=
  if games < START_DECREASE_EPSILON_GAMES then 1
  else
    max MIN_EPSILON
      (1 - ((games : ℚ) - (START_DECREASE_EPSILON_GAMES : ℕ)) / DECREASE_EPSILON_GAMES)

/-- The index slices `experience_indices[step*BATCH_SIZE : (step+1)*BATCH_SIZE]`
for `step in range(len // BATCH_SIZE)` (lines 61–66): the per-batch experience
indices of one cycle of `get_batches`, given the shuffled index list `perm`. -/
def cycle_batch_indices (len : ℕ) (perm : List ℕ) : List (List ℕ) :=
  (List.range (len / BATCH_SIZE)).map fun step =>
    (perm.drop (step * BATCH_SIZE)).take BATCH_SIZE

/-- `make_get_q_values` (lines 109–119): flatten and scale the single state,
wrap it in a one-row batch, run inference, take row 0. -/
def make_get_q_values (run_inference : Inference) : List (List ℤ) → List ℚ :=
  fun state =>
    let state_vector := flattenScale state
    let state_batch := [state_vector]
    let q_values_batch := run_inference state_batch
    q_values_batch.getD 0 []

/-- A decision strategy: a board state to an action. -/
abbrev Strategy := List (List ℤ) → ℤ

/-- A single-state Q-value query, as built by `make_get_q_values`. -/
abbrev GetQ := List (List ℤ) → List ℚ

/-- Modelled from the spec: the game module `py_2048_rl/game/play.py` is not
under src.  Per the spec it provides `play(strategy) -> (score, experiences)`
(one full episode) and a greedy strategy constructor `make_greedy_strategy`.
Episode-to-episode stochasticity of the environment is modelled by indexing
successive calls to `play` with a natural number. -/
structure GameEnv where
  play : Strategy → ℕ → ℚ × List Experience
  make_greedy_strategy : GetQ → Strategy

/-- `np.average` on a list of scores: sum divided by length. -/
def np_average (l : List ℚ) : ℚ := l.sum / (l.length : ℚ)

/-- `evaluate` (lines 176–188): build the greedy strategy, play 100 episodes,
return the average score.  (The `verbose` branch only prints one extra game;
its score is not collected.) -/
def evaluate (env : GameEnv) (get_q_values : GetQ) (verbose : Bool) : ℚ :=
  let greedy_strategy := env.make_greedy_strategy get_q_values
  let scores := (List.range 100).map fun k => (env.play greedy_strategy k).1
  np_average scores

/-- Modelled from the spec: the epsilon-greedy action choice of
`make_epsilon_greedy_strategy` (in the game module, not under src): draw a
uniform value `u` in `[0,1)`; if `u < epsilon` take the random legal action,
otherwise take the greedy action. -/
def epsilon_greedy_choice (epsilon u : ℚ) (random_action greedy_action : ℤ) : ℤ :=
  if u < epsilon then random_action else greedy_action

/-! ## Theorems -/

/-- C2: the exploration schedule of `get_batches` returns `1.0` for every
games-played count strictly below `START_DECREASE_EPSILON_GAMES`; for every
count at or above the threshold it returns
`max MIN_EPSILON (1 - (games - START_DECREASE_EPSILON_GAMES) / DECREASE_EPSILON_GAMES)`;
in particular the count exactly at the threshold takes the decay branch, which
there evaluates to `1`. -/
theorem epsilon_branch (g : ℕ) :
    (g < START_DECREASE_EPSILON_GAMES → epsilonOf g = 1) ∧
    (START_DECREASE_EPSILON_GAMES ≤ g →
      epsilonOf g =
        max MIN_EPSILON
          (1 - ((g : ℚ) - (START_DECREASE_EPSILON_GAMES : ℕ)) / DECREASE_EPSILON_GAMES)) ∧
    epsilonOf START_DECREASE_EPSILON_GAMES =
      max MIN_EPSILON
        (1 - (((START_DECREASE_EPSILON_GAMES : ℕ) : ℚ) - (START_DECREASE_EPSILON_GAMES : ℕ)) /
            DECREASE_EPSILON_GAMES) ∧
    epsilonOf START_DECREASE_EPSILON_GAMES = 1 := by
  refine ⟨fun h => ?_, fun h => ?_, ?_, ?_⟩
  · simp [epsilonOf, h]
  · simp [epsilonOf, Nat.not_lt.mpr h]
  · simp [epsilonOf]
  · norm_num [epsilonOf, MIN_EPSILON, START_DECREASE_EPSILON_GAMES, DECREASE_EPSILON_GAMES]

/-- Witness for C2's theorem at concrete counts on both sides of the
threshold. -/
theorem epsilon_branch_witness :
    (199999 < START_DECREASE_EPSILON_GAMES ∧ epsilonOf 199999 = 1) ∧
    (START_DECREASE_EPSILON_GAMES ≤ 700000 ∧
      epsilonOf 700000 =
        max MIN_EPSILON
          (1 - (((700000 : ℕ) : ℚ) - (START_DECREASE_EPSILON_GAMES : ℕ)) /
              DECREASE_EPSILON_GAMES)) := by
  refine ⟨⟨by norm_num [START_DECREASE_EPSILON_GAMES], (epsilon_branch 199999).1 (by norm_num [START_DECREASE_EPSILON_GAMES])⟩,
    ⟨by norm_num [START_DECREASE_EPSILON_GAMES], (epsilon_branch 700000).2.1 (by norm_num [START_DECREASE_EPSILON_GAMES])⟩⟩

/-- C7: the exploration schedule satisfies `epsilonOf 0 = 1`, is bounded below
by `MIN_EPSILON` and above by `1` everywhere, is monotonically non-increasing
from the warm-up threshold on, and reaches exactly `MIN_EPSILON` at
`START_DECREASE_EPSILON_GAMES + 1000000` games (the decay length). -/
theorem epsilon_schedule_properties :
    epsilonOf 0 = 1 ∧
    (∀ g : ℕ, MIN_EPSILON ≤ epsilonOf g) ∧
    (∀ g : ℕ, epsilonOf g ≤ 1) ∧
    (∀ g1 g2 : ℕ, START_DECREASE_EPSILON_GAMES ≤ g1 → g1 ≤ g2 →
      epsilonOf g2 ≤ epsilonOf g1) ∧
    epsilonOf (START_DECREASE_EPSILON_GAMES + 1000000) = MIN_EPSILON := by
  refine ⟨?_, ?_, ?_, ?_, ?_⟩
  · norm_num [epsilonOf, START_DECREASE_EPSILON_GAMES]
  · intro g
    unfold epsilonOf
    split
    · norm_num [MIN_EPSILON]
    · exact le_max_left _ _
  · intro g
    unfold epsilonOf
    split
    · exact le_refl 1
    · rename_i h
      have hg : ((START_DECREASE_EPSILON_GAMES : ℕ) : ℚ) ≤ (g : ℚ) := by
        exact_mod_cast Nat.not_lt.mp h
      have hdiv : 0 ≤ ((g : ℚ) - (START_DECREASE_EPSILON_GAMES : ℕ)) / DECREASE_EPSILON_GAMES := by
        apply div_nonneg (by linarith)
        norm_num [DECREASE_EPSILON_GAMES]
      apply max_le
      · norm_num [MIN_EPSILON]
      · linarith
  · intro g1 g2 h1 h12
    have h2 : START_DECREASE_EPSILON_GAMES ≤ g2 := le_trans h1 h12
    unfold epsilonOf
    rw [if_neg (Nat.not_lt.mpr h1), if_neg (Nat.not_lt.mpr h2)]
    apply max_le_max (le_refl MIN_EPSILON)
    have hc : (g1 : ℚ) ≤ (g2 : ℚ) := by exact_mod_cast h12
    have hdiv : ((g1 : ℚ) - (START_DECREASE_EPSILON_GAMES : ℕ)) / DECREASE_EPSILON_GAMES ≤
        ((g2 : ℚ) - (START_DECREASE_EPSILON_GAMES : ℕ)) / DECREASE_EPSILON_GAMES := by
      apply div_le_div_of_nonneg_right (by linarith)
      norm_num [DECREASE_EPSILON_GAMES]
    linarith
  · norm_num [epsilonOf, START_DECREASE_EPSILON_GAMES, MIN_EPSILON, DECREASE_EPSILON_GAMES]

/-- Witness for C7's theorem: its monotonicity part applied at concrete
counts. -/
theorem epsilon_schedule_properties_witness :
    START_DECREASE_EPSILON_GAMES ≤ 300000 ∧ 300000 ≤ 400000 ∧
      epsilonOf 400000 ≤ epsilonOf 300000 :=
  ⟨by norm_num [START_DECREASE_EPSILON_GAMES], by norm_num,
    epsilon_schedule_properties.2.2.2.1 300000 400000
      (by norm_num [START_DECREASE_EPSILON_GAMES]) (by norm_num)⟩

/-- C5: the pre-discount target initialization of `experiences_to_batches`
maps a zero reward to target `0` and any positive reward to the single fixed
constant `REWARD_NORMALIZE_FACTOR`; in particular the magnitude of a positive
reward is discarded. -/
theorem reward_normalization (es : List Experience) (i : ℕ) (hi : i < es.length) :
    ((es.getD i default).reward = 0 → (targets_init es).getD i 0 = 0) ∧
    (0 < (es.getD i default).reward →
      (targets_init es).getD i 0 = REWARD_NORMALIZE_FACTOR) ∧
    ∀ r1 r2 : ℚ, 0 < r1 → 0 < r2 → normReward r1 = normReward r2 := by
  have hlen : i < (targets_init es).length := by simpa [targets_init]
  have key : (targets_init es).getD i 0 = normReward ((es.getD i default).reward) := by
    rw [List.getD_eq_getElem _ _ hlen, List.getD_eq_getElem _ _ hi]
    simp [targets_init]
  refine ⟨fun h => ?_, fun h => ?_, fun r1 r2 h1 h2 => ?_⟩
  · rw [key, normReward, if_pos h]
  · rw [key, normReward, if_neg (ne_of_gt h)]
  · rw [normReward, normReward, if_neg (ne_of_gt h1), if_neg (ne_of_gt h2)]

/-- Witness for C5's theorem: a two-element batch with rewards `0` and `5`. -/
theorem reward_normalization_witness :
    (1 < ([⟨[[1]], 0, 0, [[2]], true⟩, ⟨[[1]], 1, 5, [[2]], true⟩] :
        List Experience).length) ∧
    (0 < (([⟨[[1]], 0, 0, [[2]], true⟩, ⟨[[1]], 1, 5, [[2]], true⟩] :
          List Experience).getD 1 default).reward ∧
      (targets_init [⟨[[1]], 0, 0, [[2]], true⟩, ⟨[[1]], 1, 5, [[2]], true⟩]).getD 1 0 =
        REWARD_NORMALIZE_FACTOR) :=
  ⟨by decide, by decide,
    (reward_normalization [⟨[[1]], 0, 0, [[2]], true⟩, ⟨[[1]], 1, 5, [[2]], true⟩] 1
        (by decide)).2.1 (by decide)⟩

/-- C9: with the discount factor set to `0`, the targets returned by the batch
builder are exactly the normalized rewards row by row (the `game_over` flag
plays no role), and the inference function is never consulted: any two
inference functions give identical output. -/
theorem gamma_zero_targets (es : List Experience) (rinf1 rinf2 : Inference) :
    (∀ i : ℕ, i < es.length →
      (experiencesToBatchesG 0 es rinf1).2.1.getD i 0 =
        normReward ((es.getD i default).reward)) ∧
    experiencesToBatchesG 0 es rinf1 = experiencesToBatchesG 0 es rinf2 := by
  have h0 : ¬ (0 : ℚ) < 0 := lt_irrefl 0
  constructor
  · intro i hi
    have ht : (experiencesToBatchesG 0 es rinf1).2.1 = targets_init es := by
      simp [experiencesToBatchesG, h0]
    rw [ht]
    have hlen : i < (targets_init es).length := by simpa [targets_init]
    rw [List.getD_eq_getElem _ _ hlen, List.getD_eq_getElem _ _ hi]
    simp [targets_init]
  · simp [experiencesToBatchesG, h0]

/-- Witness for C9's theorem: a one-element terminal batch with reward `7`. -/
theorem gamma_zero_targets_witness :
    ((0 : ℕ) < ([⟨[[3]], 2, 7, [[4]], true⟩] : List Experience).length) ∧
    (experiencesToBatchesG 0 [⟨[[3]], 2, 7, [[4]], true⟩] (fun _ => [[9]])).2.1.getD 0 0 =
      normReward ((([⟨[[3]], 2, 7, [[4]], true⟩] : List Experience).getD 0 default).reward) :=
  ⟨by decide,
    (gamma_zero_targets [⟨[[3]], 2, 7, [[4]], true⟩] (fun _ => [[9]]) (fun _ => [[9]])).1 0
      (by decide)⟩

/-- C10: the single-state Q-value query built by `make_get_q_values` equals
row 0 of the batched inference function applied to the one-row batch holding
the state flattened and scaled by `STATE_NORMALIZE_FACTOR`, and that one-row
batch is exactly the `state_batch` that `experiences_to_batches` builds for a
singleton experience list with that state: both sides apply the same state
normalization. -/
theorem single_query_matches_batch_normalization (run_inference rinf2 : Inference)
    (e : Experience) :
    make_get_q_values run_inference e.state =
      (run_inference [e.state.flatten.map fun v => (v : ℚ) * STATE_NORMALIZE_FACTOR]).getD 0 [] ∧
    (experiences_to_batches [e] rinf2).1 =
      [e.state.flatten.map fun v => (v : ℚ) * STATE_NORMALIZE_FACTOR] := by
  constructor
  · simp [make_get_q_values, flattenScale]
  · simp [experiences_to_batches, experiencesToBatchesG, state_batch_of, flattenScale]

/-- Row `i` of the targets produced by the batch builder when the discount is
positive: normalized reward plus `gamma` times the terminal-masked row maximum
of the inference output, provided inference returns one row per input row. -/
theorem targets_getD_eq (gamma : ℚ) (hg : 0 < gamma) (es : List Experience)
    (run_inference : Inference) (i : ℕ) (hi : i < es.length)
    (hlen : (run_inference (next_state_batch_of es)).length = es.length) :
    (experiencesToBatchesG gamma es run_inference).2.1.getD i 0 =
      normReward ((es.getD i default).reward) +
        gamma * (if (es.getD i default).game_over then 0
          else rowMax ((run_inference (next_state_batch_of es)).getD i [])) := by
  have hzip : i < (((targets_init es).zip
      (masked_max_qs (run_inference (next_state_batch_of es))
        (game_over_batch_of es))).map fun p => p.1 + gamma * p.2).length := by
    simp only [List.length_map, List.length_zip, targets_init, masked_max_qs,
      game_over_batch_of, hlen]
    omega
  have hps : i < (run_inference (next_state_batch_of es)).length := by rw [hlen]; exact hi
  simp only [experiencesToBatchesG, if_pos hg]
  rw [List.getD_eq_getElem _ _ hzip, List.getD_eq_getElem es default hi,
    List.getD_eq_getElem _ _ hps]
  simp [List.getElem_zip, targets_init, masked_max_qs, game_over_batch_of]

/-- C1: in the batch-target computation with positive `GAMMA`, every row whose
`game_over` flag is true receives as target exactly the normalized reward of
that experience — no discounted continuation term — whatever the inference
function returns (provided it returns one row per input row, as NumPy's shape
rules force). -/
theorem terminal_row_target (es : List Experience) (run_inference : Inference)
    (i : ℕ) (hi : i < es.length)
    (hlen : (run_inference (next_state_batch_of es)).length = es.length)
    (hterm : (es.getD i default).game_over = true) :
    (targets_of es run_inference).getD i 0 = normReward ((es.getD i default).reward) := by
  have h := targets_getD_eq GAMMA (by norm_num [GAMMA]) es run_inference i hi hlen
  have ht : targets_of es run_inference = (experiencesToBatchesG GAMMA es run_inference).2.1 := rfl
  rw [ht, h, hterm]
  simp

/-- Witness for C1's theorem: a terminal experience with reward `5`, against an
inference stub that reports a huge Q-value for the next state. -/
theorem terminal_row_target_witness :
    ((0 : ℕ) < ([⟨[[1]], 0, 5, [[2]], true⟩] : List Experience).length) ∧
    ((fun _ => [[1000]] : Inference)
        (next_state_batch_of [⟨[[1]], 0, 5, [[2]], true⟩])).length =
      ([⟨[[1]], 0, 5, [[2]], true⟩] : List Experience).length ∧
    (([⟨[[1]], 0, 5, [[2]], true⟩] : List Experience).getD 0 default).game_over = true ∧
    (targets_of [⟨[[1]], 0, 5, [[2]], true⟩] (fun _ => [[1000]])).getD 0 0 =
      normReward ((([⟨[[1]], 0, 5, [[2]], true⟩] : List Experience).getD 0 default).reward) :=
  ⟨by decide, by decide, by decide,
    terminal_row_target [⟨[[1]], 0, 5, [[2]], true⟩] (fun _ => [[1000]]) 0
      (by decide) (by decide) (by decide)⟩

/-- C3 counterexample: `experiences_to_batches` does not return a
`next_state_batch` at all — no function of its return value can recover the
normalized next states.  Two concrete singleton inputs that differ only in
`next_state` produce identical return values (under a constant inference
stub), yet have different `next_state_batch`s. -/
theorem next_state_batch_not_returned :
    ¬ ∃ g : List (List ℚ) × List ℚ × List ℤ → List (List ℚ),
        ∀ (es : List Experience) (run_inference : Inference),
          g (experiences_to_batches es run_inference) = next_state_batch_of es := by
  rintro ⟨g, hg⟩
  have h1 := hg [⟨[[0]], 0, 0, [[1]], true⟩] fun _ => [[0]]
  have h2 := hg [⟨[[0]], 0, 0, [[2]], true⟩] fun _ => [[0]]
  have heq : experiences_to_batches [⟨[[0]], 0, 0, [[1]], true⟩] (fun _ => [[0]]) =
      experiences_to_batches [⟨[[0]], 0, 0, [[2]], true⟩] (fun _ => [[0]]) := by
    norm_num [experiences_to_batches, experiencesToBatchesG, state_batch_of,
      next_state_batch_of, targets_init, actions_of, game_over_batch_of,
      masked_max_qs, flattenScale, normReward, rowMax, GAMMA]
  rw [heq, h2] at h1
  have hne : next_state_batch_of [⟨[[0]], 0, 0, [[2]], true⟩] ≠
      next_state_batch_of [⟨[[0]], 0, 0, [[1]], true⟩] := by
    norm_num [next_state_batch_of, flattenScale, STATE_NORMALIZE_FACTOR]
  exact hne h1

/-- C3 (amended): for every input experience list of length `N` and every
inference function returning one row per input row, the three arrays actually
returned by `experiences_to_batches` — `state_batch`, `targets`, `actions` —
all have row count `N`, and row `i` of each is derived from experience `i` of
the input (the `next_state_batch` is built and consumed internally only). -/
theorem batch_alignment (es : List Experience) (run_inference : Inference)
    (hlen : (run_inference (next_state_batch_of es)).length = es.length) :
    ((experiences_to_batches es run_inference).1.length = es.length ∧
      (experiences_to_batches es run_inference).2.1.length = es.length ∧
      (experiences_to_batches es run_inference).2.2.length = es.length) ∧
    ∀ i : ℕ, i < es.length →
      (experiences_to_batches es run_inference).1.getD i [] =
          flattenScale (es.getD i default).state ∧
      (experiences_to_batches es run_inference).2.2.getD i 0 =
          (es.getD i default).action ∧
      (experiences_to_batches es run_inference).2.1.getD i 0 =
        normReward ((es.getD i default).reward) +
          GAMMA * (if (es.getD i default).game_over then 0
            else rowMax ((run_inference (next_state_batch_of es)).getD i [])) := by
  have hG : (0 : ℚ) < GAMMA := by norm_num [GAMMA]
  refine ⟨⟨?_, ?_, ?_⟩, fun i hi => ⟨?_, ?_, ?_⟩⟩
  · simp [experiences_to_batches, experiencesToBatchesG, state_batch_of]
  · simp only [experiences_to_batches, experiencesToBatchesG, if_pos hG]
    simp only [List.length_map, List.length_zip, targets_init, masked_max_qs,
      game_over_batch_of, hlen]
    omega
  · simp [experiences_to_batches, experiencesToBatchesG, actions_of]
  · have hsb : i < ((experiences_to_batches es run_inference).1).length := by
      simpa [experiences_to_batches, experiencesToBatchesG, state_batch_of]
    rw [List.getD_eq_getElem _ _ hsb, List.getD_eq_getElem es default hi]
    simp [experiences_to_batches, experiencesToBatchesG, state_batch_of]
  · have hac : i < ((experiences_to_batches es run_inference).2.2).length := by
      simpa [experiences_to_batches, experiencesToBatchesG, actions_of]
    rw [List.getD_eq_getElem _ _ hac, List.getD_eq_getElem es default hi]
    simp [experiences_to_batches, experiencesToBatchesG, actions_of]
  · exact targets_getD_eq GAMMA hG es run_inference i hi hlen

/-- Witness for C3's amended theorem: a two-element batch with a two-row
inference stub. -/
theorem batch_alignment_witness :
    ((fun _ => [[1], [2]] : Inference)
        (next_state_batch_of
          [⟨[[1]], 0, 0, [[2]], false⟩, ⟨[[3]], 1, 4, [[5]], true⟩])).length =
      ([⟨[[1]], 0, 0, [[2]], false⟩, ⟨[[3]], 1, 4, [[5]], true⟩] :
        List Experience).length ∧
    ((experiences_to_batches [⟨[[1]], 0, 0, [[2]], false⟩, ⟨[[3]], 1, 4, [[5]], true⟩]
          (fun _ => [[1], [2]])).1.length =
        ([⟨[[1]], 0, 0, [[2]], false⟩, ⟨[[3]], 1, 4, [[5]], true⟩] :
          List Experience).length ∧
      (experiences_to_batches [⟨[[1]], 0, 0, [[2]], false⟩, ⟨[[3]], 1, 4, [[5]], true⟩]
          (fun _ => [[1], [2]])).2.1.length =
        ([⟨[[1]], 0, 0, [[2]], false⟩, ⟨[[3]], 1, 4, [[5]], true⟩] :
          List Experience).length ∧
      (experiences_to_batches [⟨[[1]], 0, 0, [[2]], false⟩, ⟨[[3]], 1, 4, [[5]], true⟩]
          (fun _ => [[1], [2]])).2.2.length =
        ([⟨[[1]], 0, 0, [[2]], false⟩, ⟨[[3]], 1, 4, [[5]], true⟩] :
          List Experience).length) :=
  ⟨by decide,
    (batch_alignment [⟨[[1]], 0, 0, [[2]], false⟩, ⟨[[3]], 1, 4, [[5]], true⟩]
        (fun _ => [[1], [2]]) (by decide)).1⟩

/-- Flattening the consecutive `n`-sized slices of a list recovers its first
`k * n` elements. -/
theorem flatten_slices (l : List ℕ) (n : ℕ) (k : ℕ) :
    ((List.range k).map fun s => (l.drop (s * n)).take n).flatten = l.take (k * n) := by
  induction k with
  | zero => simp
  | succ k ih =>
      rw [List.range_succ, List.map_append, List.flatten_append, ih]
      simp [Nat.succ_mul, List.take_add]

/-- C4: within one cycle of `get_batches` over `E` collected experiences and a
shuffled index list `perm` (a permutation of `0..E-1`), exactly `E / BATCH_SIZE`
batches are formed; each uses exactly `BATCH_SIZE` indices; the index slices are
pairwise disjoint, no index is used twice, and exactly
`(E / BATCH_SIZE) * BATCH_SIZE` indices are used in total. -/
theorem one_cycle_partition (E : ℕ) (perm : List ℕ)
    (hperm : perm.Perm (List.range E)) :
    (cycle_batch_indices E perm).length = E / BATCH_SIZE ∧
    (∀ b ∈ cycle_batch_indices E perm, b.length = BATCH_SIZE) ∧
    List.Pairwise List.Disjoint (cycle_batch_indices E perm) ∧
    (cycle_batch_indices E perm).flatten.Nodup ∧
    (cycle_batch_indices E perm).flatten.length = (E / BATCH_SIZE) * BATCH_SIZE := by
  have hlen : perm.length = E := by simpa using hperm.length_eq
  have hnd : perm.Nodup := hperm.nodup_iff.mpr (List.nodup_range E)
  have hflat : (cycle_batch_indices E perm).flatten =
      perm.take (E / BATCH_SIZE * BATCH_SIZE) := by
    rw [cycle_batch_indices]
    exact flatten_slices perm BATCH_SIZE (E / BATCH_SIZE)
  have hmul : E / BATCH_SIZE * BATCH_SIZE ≤ E := Nat.div_mul_le_self E BATCH_SIZE
  have hndflat : (cycle_batch_indices E perm).flatten.Nodup := by
    rw [hflat]
    exact hnd.sublist (List.take_sublist _ _)
  refine ⟨?_, ?_, ?_, hndflat, ?_⟩
  · simp [cycle_batch_indices]
  · intro b hb
    rw [cycle_batch_indices] at hb
    obtain ⟨s, hs, hsb⟩ := List.mem_map.mp hb
    have hsE : s < E / BATCH_SIZE := List.mem_range.mp hs
    have hbound : s * BATCH_SIZE + BATCH_SIZE ≤ E := by
      have h1 : (s + 1) * BATCH_SIZE ≤ E / BATCH_SIZE * BATCH_SIZE :=
        Nat.mul_le_mul_right BATCH_SIZE hsE
      calc s * BATCH_SIZE + BATCH_SIZE = (s + 1) * BATCH_SIZE := by ring
        _ ≤ E / BATCH_SIZE * BATCH_SIZE := h1
        _ ≤ E := hmul
    rw [← hsb, List.length_take, List.length_drop, hlen]
    omega
  · exact (List.nodup_flatten.mp hndflat).2
  · rw [hflat, List.length_take, hlen]
    omega

/-- Witness for C4's theorem: `E = 33` with the identity permutation — one
batch of 32 indices, one leftover index discarded. -/
theorem one_cycle_partition_witness :
    (List.range 33).Perm (List.range 33) ∧
    ((cycle_batch_indices 33 (List.range 33)).length = 33 / BATCH_SIZE ∧
      (∀ b ∈ cycle_batch_indices 33 (List.range 33), b.length = BATCH_SIZE) ∧
      List.Pairwise List.Disjoint (cycle_batch_indices 33 (List.range 33)) ∧
      (cycle_batch_indices 33 (List.range 33)).flatten.Nodup ∧
      (cycle_batch_indices 33 (List.range 33)).flatten.length =
        (33 / BATCH_SIZE) * BATCH_SIZE) :=
  ⟨List.Perm.refl (List.range 33),
    one_cycle_partition 33 (List.range 33) (List.Perm.refl (List.range 33))⟩

/-- C6 counterexample: no fixed range (in particular none determined only by
`REWARD_NORMALIZE_FACTOR` and `GAMMA`) contains the targets for every possible
inference output: a single non-terminal experience and an inference stub
reporting a large enough Q-value push the target above any prescribed upper
bound. -/
theorem targets_not_uniformly_bounded :
    ¬ ∃ lo hi : ℚ, ∀ (es : List Experience) (run_inference : Inference),
        ∀ t ∈ targets_of es run_inference, lo ≤ t ∧ t ≤ hi := by
  rintro ⟨lo, hi, h⟩
  have hval : targets_of [⟨[[0]], 0, 0, [[0]], false⟩]
      (fun _ => [[(hi + 1) * (50 / 49)]]) = [hi + 1] := by
    norm_num [targets_of, experiences_to_batches, experiencesToBatchesG,
      targets_init, masked_max_qs, next_state_batch_of, game_over_batch_of,
      normReward, rowMax, GAMMA, flattenScale]
    ring
  have hmem : (hi + 1) ∈ targets_of [⟨[[0]], 0, 0, [[0]], false⟩]
      (fun _ => [[(hi + 1) * (50 / 49)]]) := by
    rw [hval]
    exact List.mem_singleton.mpr rfl
  have hle := (h _ _ _ hmem).2
  linarith

/-- Folding `max` over a list bounded above by `B`, from a start bounded above
by `B`, stays bounded above by `B`. -/
theorem foldl_max_le (B : ℚ) : ∀ (qs : List ℚ) (a : ℚ), a ≤ B → (∀ q ∈ qs, q ≤ B) →
    qs.foldl max a ≤ B := by
  intro qs
  induction qs with
  | nil => intro a ha _; simpa using ha
  | cons q qs ih =>
      intro a ha h
      simp only [List.foldl_cons]
      exact ih (max a q) (max_le ha (h q (List.mem_cons_self q qs)))
        fun x hx => h x (List.mem_cons_of_mem q hx)

/-- Folding `max` never goes below a lower bound on the start value. -/
theorem le_foldl_max (C : ℚ) : ∀ (qs : List ℚ) (a : ℚ), C ≤ a → C ≤ qs.foldl max a := by
  intro qs
  induction qs with
  | nil => intro a ha; simpa using ha
  | cons q qs ih =>
      intro a ha
      simp only [List.foldl_cons]
      exact ih (max a q) (le_trans ha (le_max_left a q))

/-- The per-row maximum of a row whose entries all lie in `[-Q, Q]` lies in
`[-Q, Q]` (with the empty row giving `0`, also in range). -/
theorem rowMax_bounds (row : List ℚ) (Q : ℚ) (hQ : 0 ≤ Q)
    (h : ∀ q ∈ row, -Q ≤ q ∧ q ≤ Q) : -Q ≤ rowMax row ∧ rowMax row ≤ Q := by
  cases row with
  | nil =>
      constructor <;> simp [rowMax] <;> linarith
  | cons q qs =>
      exact ⟨le_foldl_max (-Q) qs q (h q (List.mem_cons_self q qs)).1,
        foldl_max_le Q qs q (h q (List.mem_cons_self q qs)).2
          fun x hx => (h x (List.mem_cons_of_mem q hx)).2⟩

/-- C6 (amended): for every experience list and every inference function whose
output entries (on the batch actually queried) all lie in `[-Q, Q]`, every
target lies in the range `[-(GAMMA * Q), REWARD_NORMALIZE_FACTOR + GAMMA * Q]`
— a range determined by `REWARD_NORMALIZE_FACTOR`, `GAMMA` and the inference
output bound. -/
theorem targets_bounded (es : List Experience) (run_inference : Inference) (Q : ℚ)
    (hQ : 0 ≤ Q)
    (hb : ∀ row ∈ run_inference (next_state_batch_of es), ∀ q ∈ row, -Q ≤ q ∧ q ≤ Q) :
    ∀ t ∈ targets_of es run_inference,
      -(GAMMA * Q) ≤ t ∧ t ≤ REWARD_NORMALIZE_FACTOR + GAMMA * Q := by
  intro t ht
  have hG : (0 : ℚ) < GAMMA := by norm_num [GAMMA]
  rw [targets_of, experiences_to_batches] at ht
  simp only [experiencesToBatchesG, if_pos hG] at ht
  obtain ⟨p, hp, hpt⟩ := List.mem_map.mp ht
  have hp1 := (List.of_mem_zip hp).1
  have hp2 := (List.of_mem_zip hp).2
  rw [targets_init] at hp1
  obtain ⟨e, _, hne⟩ := List.mem_map.mp hp1
  have hr1 : 0 ≤ p.1 ∧ p.1 ≤ REWARD_NORMALIZE_FACTOR := by
    rw [← hne, normReward]
    split <;> norm_num [REWARD_NORMALIZE_FACTOR]
  have hm : -Q ≤ p.2 ∧ p.2 ≤ Q := by
    rw [masked_max_qs] at hp2
    obtain ⟨pr, hpr, hprm⟩ := List.mem_map.mp hp2
    have hpr1 := (List.of_mem_zip hpr).1
    obtain ⟨row, hrow, hrm⟩ := List.mem_map.mp hpr1
    rw [← hprm]
    by_cases hb2 : pr.2 = true
    · simp only [hb2, if_true]
      exact ⟨neg_nonpos.mpr hQ, hQ⟩
    · simp only [eq_false_of_ne_true hb2, if_false]
      rw [← hrm]
      exact rowMax_bounds row Q hQ (hb row hrow)
  rw [← hpt]
  have hlow : GAMMA * (-Q) ≤ GAMMA * p.2 := mul_le_mul_of_nonneg_left hm.1 hG.le
  have hhigh : GAMMA * p.2 ≤ GAMMA * Q := mul_le_mul_of_nonneg_left hm.2 hG.le
  rw [mul_neg] at hlow
  exact ⟨by linarith [hr1.1], by linarith [hr1.2]⟩

/-- Witness for C6's amended theorem: one non-terminal experience and an
inference stub with Q-values in `[-2, 2]`. -/
theorem targets_bounded_witness :
    ((0 : ℚ) ≤ 2) ∧
    (∀ row ∈ (fun _ => [[2, -1]] : Inference)
        (next_state_batch_of [⟨[[1]], 0, 3, [[2]], false⟩]),
      ∀ q ∈ row, -(2 : ℚ) ≤ q ∧ q ≤ 2) ∧
    (∀ t ∈ targets_of [⟨[[1]], 0, 3, [[2]], false⟩] (fun _ => [[2, -1]]),
      -(GAMMA * 2) ≤ t ∧ t ≤ REWARD_NORMALIZE_FACTOR + GAMMA * 2) :=
  ⟨by norm_num, by norm_num,
    targets_bounded [⟨[[1]], 0, 3, [[2]], false⟩] (fun _ => [[2, -1]]) 2
      (by norm_num) (by norm_num)⟩

/-- C8: `evaluate` (non-verbose) collects the scores of exactly 100 episodes
played under the greedy strategy and returns their arithmetic mean (sum
divided by 100); and the greedy policy is the epsilon-greedy choice at
`epsilon = 0`: for any draw `u` with `0 ≤ u`, the random branch is never taken.
In the embedding `evaluate` is a pure function of the Q-value query — it has
no way to mutate the approximator. -/
theorem evaluate_hundred_episodes_mean (env : GameEnv) (get_q_values : GetQ) :
    ((List.range 100).map fun k =>
        (env.play (env.make_greedy_strategy get_q_values) k).1).length = 100 ∧
    evaluate env get_q_values false =
      ((List.range 100).map fun k =>
        (env.play (env.make_greedy_strategy get_q_values) k).1).sum / 100 ∧
    ∀ (u : ℚ) (random_action greedy_action : ℤ), 0 ≤ u →
      epsilon_greedy_choice 0 u random_action greedy_action = greedy_action := by
  refine ⟨by simp, ?_, fun u ra ga hu => ?_⟩
  · show np_average _ = _
    rw [np_average]
    norm_num
  · rw [epsilon_greedy_choice, if_neg (not_lt.mpr hu)]

/-- Witness for C8's theorem: a concrete environment whose `k`-th episode
scores `k`, and a concrete non-negative draw. -/
theorem evaluate_hundred_episodes_mean_witness :
    (0 : ℚ) ≤ 1 ∧
    epsilon_greedy_choice 0 1 3 7 = 7 :=
  ⟨by norm_num,
    (evaluate_hundred_episodes_mean ⟨fun _ k => ((k : ℚ), []), fun _ _ => 0⟩
        (fun _ => [])).2.2 1 3 7 (by norm_num)⟩
